import Mathlib

set_option maxRecDepth 100000

/-!
Verification of the nexus-extensions code-intelligence service against its
natural-language specification.

The development shallowly embeds the Rust sources:
* `codebase-indexer/extension/src/indexer.rs` — chunking (`chunk_file`),
  chunk identifiers (`chunk_id`), incremental sync (`sync_repository`);
* `codebase-indexer/src/graph.rs` — edge identifiers (`edge_id`), the merged
  symbol index, the import map (`extract_import_map`) and name resolution
  (`resolve_reference`, `find_symbol_file`);
* `codebase-indexer/src/ops.rs` — the sync dispatcher's metadata update and
  the search-filter construction of `op_search`;
* `webhook-receiver/src/verification.rs` and `http_server.rs` — the
  standard-webhooks signature check.

External libraries are embedded as follows: SHA-256 followed by hex encoding
is treated as an injective black box, so identifiers are modelled by their
hashed preimage strings, exactly as the identity claims demand; HMAC-SHA256 is
a function parameter; base64 is implemented concretely.  Rust `HashMap`s are
modelled as association lists (one iteration order of the map), `u32` line
numbers as `Nat` (the claims never exercise overflow).  All recursions are
structural so every definition evaluates inside the kernel.
-/

namespace Nexus

/-! ### Decimal rendering of naturals

Rust's `format!("{n}")` on a `u32` renders the decimal digits.  We define the
rendering from scratch (with fuel, to keep it structural) so that we can prove
it injective and colon-free.
-/

/-- Fuelled digit renderer; `fuel > n` always suffices. -/
def natDigitsAux : Nat → Nat → List Char
  | 0, _ => []
  | fuel + 1, n =>
    if n < 10 then [Nat.digitChar n]
    else natDigitsAux fuel (n / 10) ++ [Nat.digitChar (n % 10)]

/-- Decimal digit list of a natural number, most significant first;
mirrors the output of Rust's `Display` for unsigned integers. -/
def natDigits (n : Nat) : List Char := natDigitsAux (n + 1) n

/-- Decimal string of a natural number. -/
def natStr (n : Nat) : String := ⟨natDigits n⟩

/-- Value of a decimal digit character. -/
def digitVal (c : Char) : Nat := c.toNat - 48

/-- Read a digit list back as a natural number. -/
def ofDigits (l : List Char) : Nat := l.foldl (fun a c => 10 * a + digitVal c) 0

theorem digitVal_digitChar {d : Nat} (h : d < 10) : digitVal (Nat.digitChar d) = d := by
  interval_cases d <;> decide

theorem digitChar_ne_colon {d : Nat} (h : d < 10) : Nat.digitChar d ≠ ':' := by
  interval_cases d <;> decide

theorem natDigitsAux_congr :
    ∀ n f₁ f₂, n < f₁ → n < f₂ → natDigitsAux f₁ n = natDigitsAux f₂ n := by
  intro n
  induction n using Nat.strong_induction_on with
  | _ n ih =>
    intro f₁ f₂ h₁ h₂
    match f₁, f₂ with
    | g₁ + 1, g₂ + 1 =>
      simp only [natDigitsAux]
      by_cases h : n < 10
      · simp [h]
      · have hd : n / 10 < n := Nat.div_lt_self (by omega) (by omega)
        simp only [h, if_neg, if_false]
        rw [ih (n / 10) hd g₁ g₂ (by omega) (by omega)]

/-- One-step unfolding of `natDigits`. -/
theorem natDigits_eq (n : Nat) :
    natDigits n =
      if n < 10 then [Nat.digitChar n]
      else natDigits (n / 10) ++ [Nat.digitChar (n % 10)] := by
  have step : natDigitsAux (n + 1) n =
      if n < 10 then [Nat.digitChar n]
      else natDigitsAux n (n / 10) ++ [Nat.digitChar (n % 10)] := rfl
  by_cases h : n < 10
  · simpa [natDigits, h] using step
  · rw [if_neg h]
    show natDigitsAux (n + 1) n = natDigitsAux (n / 10 + 1) (n / 10) ++ [Nat.digitChar (n % 10)]
    rw [step, if_neg h, natDigitsAux_congr (n / 10) n (n / 10 + 1)
      (by omega) (by omega)]

theorem ofDigits_append (l : List Char) (c : Char) :
    ofDigits (l ++ [c]) = 10 * ofDigits l + digitVal c := by
  simp [ofDigits, List.foldl_append]

theorem ofDigits_natDigits (n : Nat) : ofDigits (natDigits n) = n := by
  induction n using Nat.strong_induction_on with
  | _ n ih =>
    rw [natDigits_eq]
    by_cases h : n < 10
    · simp only [h, if_pos]
      simpa [ofDigits] using digitVal_digitChar h
    · simp only [h, if_neg, if_false]
      rw [ofDigits_append, ih (n / 10) (Nat.div_lt_self (by omega) (by omega)),
        digitVal_digitChar (Nat.mod_lt _ (by omega))]
      omega

theorem natDigits_injective {m n : Nat} (h : natDigits m = natDigits n) : m = n := by
  have := congrArg ofDigits h
  rwa [ofDigits_natDigits, ofDigits_natDigits] at this

theorem colon_not_mem_natDigits (n : Nat) : ':' ∉ natDigits n := by
  induction n using Nat.strong_induction_on with
  | _ n ih =>
    rw [natDigits_eq]
    by_cases h : n < 10
    · simp only [h, if_pos, List.mem_singleton]
      exact fun hc => digitChar_ne_colon h hc.symm
    · simp only [h, if_neg, if_false, List.mem_append, List.mem_singleton]
      rintro (hc | hc)
      · exact ih (n / 10) (Nat.div_lt_self (by omega) (by omega)) hc
      · exact digitChar_ne_colon (Nat.mod_lt _ (by omega)) hc.symm

/-! ### Lines of a source file

`str::lines()` in Rust splits on `'\n'`, strips one trailing `'\r'` from each
piece, and omits a final empty piece (the final line ending is optional); an
empty string yields no lines at all.
-/

/-- Split a character list at every newline character. -/
def splitNl : List Char → List (List Char)
  | [] => [[]]
  | c :: rest =>
    if c = '\n' then [] :: splitNl rest
    else
      match splitNl rest with
      | l :: ls => (c :: l) :: ls
      | [] => [[c]]

/-- Strip a single trailing carriage return, as Rust's `lines()` does. -/
def stripCR (l : List Char) : List Char :=
  if l.getLast? = some '\r' then l.dropLast else l

/-- The line list of a source string, mirroring `str::lines()`. -/
def rustLines (s : String) : List String :=
  let parts := splitNl s.data
  let parts := if parts.getLast? = some [] then parts.dropLast else parts
  parts.map (fun l => ⟨stripCR l⟩)

/-! ### Substring search

`str::contains(pat)` and `str::rsplit(pat).next()` from Rust, implemented over
character lists.  `afterLast sep l` is the suffix of `l` after the last
occurrence of `sep`, or `none` when `sep` does not occur.
-/

/-- The suffix after the last occurrence of `sep`, if any. -/
def afterLast (sep : List Char) : List Char → Option (List Char)
  | [] => none
  | c :: rest =>
    match afterLast sep rest with
    | some r => some r
    | none =>
      if sep.isPrefixOf (c :: rest) then some ((c :: rest).drop sep.length)
      else none

/-- Rust `s.contains(pat)` for a string pattern. -/
def containsSeq (pat s : String) : Bool := (afterLast pat.data s.data).isSome

/-- Rust `s.rsplit(sep).next()`: the segment after the last occurrence of
`sep`, or the whole string when `sep` does not occur.  The first `next()` on a
split iterator never yields `None`, which this definition makes explicit. -/
def rsplitNext (sep s : String) : Option String :=
  some (match afterLast sep.data s.data with
        | some r => ⟨r⟩
        | none => s)

/-! ### Chunk records and stable identifiers

From `codebase-indexer/extension/src/indexer.rs` and
`codebase-indexer/src/search.rs`.  `chunk_id` and `edge_id` hash a preimage
string with SHA-256 and hex-encode it; the identity claims treat the hash as
collision-free, so the identifiers are modelled by the preimage strings.
-/

/-- A chunk row (`search.rs`, `ChunkRecord`).  The dense vector is
`Option (List Float)`; `chunk_file` always leaves it `none`. -/
structure ChunkRecord where
  id : String
  repo_id : String
  file_path : String
  language : String
  symbol_name : String
  symbol_type : String
  start_line : Nat
  end_line : Nat
  content : String
  vector : Option (List Float)

/-- A symbol extracted by tree-sitter (`languages.rs`, `ExtractedSymbol`). -/
structure ExtractedSymbol where
  name : String
  symbol_type : String
  start_line : Nat
  end_line : Nat
  content : String
deriving DecidableEq

/-- Preimage of the stable chunk ID (`indexer.rs`, `chunk_id`):
`format!("{repo_id}:{file_path}:{symbol_name}:{start_line}")`. -/
def chunk_id (repo_id file_path symbol_name : String) (start_line : Nat) : String :=
  repo_id ++ ":" ++ file_path ++ ":" ++ symbol_name ++ ":" ++ natStr start_line

/-- Preimage of the stable edge ID (`graph.rs`, `edge_id`):
`format!("{repo_id}:{source_file}:{line}:{target_name}:{edge_type}")`. -/
def edge_id (repo_id source_file : String) (line : Nat) (target_name edge_type : String) :
    String :=
  repo_id ++ ":" ++ source_file ++ ":" ++ natStr line ++ ":" ++ target_name ++ ":" ++ edge_type

/-! ### Chunking (`indexer.rs`, `chunk_file`) -/

/-- The sliding-window fallback loop of `chunk_file`: windows of 200 lines
with 50 lines of overlap (`start += window - overlap`, i.e. 150), 1-indexed,
stopping once the window reaches end-of-file. -/
def slidingChunks (lines : List String) (file_path lang repo_id : String) (start : Nat) :
    List ChunkRecord :=
  if start < lines.length then
    let e := min (start + 200) lines.length
    { id := chunk_id repo_id file_path "" (start + 1)
      repo_id := repo_id
      file_path := file_path
      language := lang
      symbol_name := ""
      symbol_type := "file_chunk"
      start_line := start + 1
      end_line := e
      content := String.intercalate "\n" ((lines.drop start).take (e - start))
      vector := none } ::
      (if lines.length ≤ e then [] else slidingChunks lines file_path lang repo_id (start + 150))
  else []
  termination_by lines.length - start
  decreasing_by omega

/-- Chunk a single file (`indexer.rs`, `chunk_file`).  The tree-sitter
extractor is a parameter (`extract_symbols` is an external grammar). -/
def chunk_file (extract : String → String → Except String (List ExtractedSymbol))
    (source file_path lang repo_id : String) : List ChunkRecord :=
  let line_count := (rustLines source).length
  if line_count < 100 then
    [{ id := chunk_id repo_id file_path "" 1
       repo_id := repo_id
       file_path := file_path
       language := lang
       symbol_name := ""
       symbol_type := "file_chunk"
       start_line := 1
       end_line := line_count
       content := source
       vector := none }]
  else
    let symbolic : Option (List ChunkRecord) :=
      if lang ≠ "unknown" then
        match extract source lang with
        | .ok symbols =>
          if symbols ≠ [] then
            some (symbols.map fun sym =>
              { id := chunk_id repo_id file_path sym.name sym.start_line
                repo_id := repo_id
                file_path := file_path
                language := lang
                symbol_name := sym.name
                symbol_type := sym.symbol_type
                start_line := sym.start_line
                end_line := sym.end_line
                content := sym.content
                vector := none })
          else none
        | .error _ => none
      else none
    match symbolic with
    | some chunks => chunks
    | none => slidingChunks (rustLines source) file_path lang repo_id 0

/-- The `[start_line, end_line]` ranges the sliding-window fallback emits,
computed directly from the line count. -/
def windowRanges (len start : Nat) : List (Nat × Nat) :=
  if start < len then
    (start + 1, min (start + 200) len) ::
      (if len ≤ min (start + 200) len then [] else windowRanges len (start + 150))
  else []
  termination_by len - start
  decreasing_by omega

theorem slidingChunks_ranges (lines : List String) (file_path lang repo_id : String)
    (start : Nat) :
    (slidingChunks lines file_path lang repo_id start).map (fun c => (c.start_line, c.end_line))
      = windowRanges lines.length start := by
  rw [slidingChunks, windowRanges]
  by_cases h : start < lines.length
  · simp only [h, if_pos, List.map_cons]
    by_cases h2 : lines.length ≤ min (start + 200) lines.length
    · simp [h2]
    · simp only [h2, if_neg, if_false]
      rw [slidingChunks_ranges lines file_path lang repo_id (start + 150)]
  · simp [h]
  termination_by lines.length - start
  decreasing_by omega

/-! ### Graph builder (`codebase-indexer/src/graph.rs`)

`HashMap<String, _>` values are modelled as association lists whose order is
one iteration order of the map; `HashMap::get` is `List.lookup` (keys of a
`HashMap` are unique, so the first hit is the entry).
-/

/-- Symbol info used for name resolution (`graph.rs`, `SymbolInfo`). -/
structure SymbolInfo where
  name : String
  symbol_type : String
  start_line : Nat
  end_line : Nat
deriving DecidableEq

/-- A reference extracted by tree-sitter (`languages.rs`, `ExtractedReference`). -/
structure ExtractedReference where
  target_name : String
  edge_type : String
  line : Nat
deriving DecidableEq

/-- `HashMap::insert`, modelled so that the newest binding shadows older ones
under `List.lookup`. -/
def mapInsert (m : List (String × String)) (k v : String) : List (String × String) :=
  (k, v) :: m

/-- Rust `str::trim_matches(c)`: remove every leading and trailing `c`. -/
def trimMatches (c : Char) (s : String) : String :=
  ⟨((s.data.dropWhile (· = c)).reverse.dropWhile (· = c)).reverse⟩

/-- Build the per-file import map (`graph.rs`, `extract_import_map`).  Note:
`rsplit("::").next()` is always `Some`, so the `'/'` branch is unreachable. -/
def extract_import_map (refs : List ExtractedReference) : List (String × String) :=
  refs.foldl
    (fun map r =>
      if r.edge_type ≠ "imports" then map
      else
        match rsplitNext "::" r.target_name with
        | some short => mapInsert map short r.target_name
        | none =>
          match rsplitNext "/" r.target_name with
          | some short =>
            let clean := trimMatches '\'' (trimMatches '"' short)
            mapInsert map clean r.target_name
          | none => map)
    []

/-- The loop body of `find_symbol_file`: `found_file` and `count` are the two
mutable locals of the Rust loop. -/
def findSymbolFileGo (name : String) :
    List (String × List SymbolInfo) → String → Nat → String
  | [], found_file, _ => found_file
  | (file, symbols) :: rest, found_file, count =>
    if symbols.any (fun s => s.name = name) then
      let found_file := if count = 0 then file else found_file
      let count := count + 1
      if 1 < count then ""
      else findSymbolFileGo name rest found_file count
    else findSymbolFileGo name rest found_file count

/-- Find the unique file owning a symbol (`graph.rs`, `find_symbol_file`);
empty string when absent or ambiguous. -/
def find_symbol_file (name : String) (symbol_index : List (String × List SymbolInfo)) :
    String :=
  findSymbolFileGo name symbol_index "" 0

/-- Resolve a reference to `(target_qualified, target_file)`
(`graph.rs`, `resolve_reference`). -/
def resolve_reference (target_name edge_type current_file : String)
    (import_map : List (String × String))
    (symbol_index : List (String × List SymbolInfo)) : String × String :=
  if containsSeq "::" target_name
      || (edge_type == "imports" && containsSeq "/" target_name) then
    let short_name :=
      (((rsplitNext "::" target_name).orElse
        (fun _ => rsplitNext "/" target_name)).getD target_name)
    (target_name, find_symbol_file short_name symbol_index)
  else
    match import_map.lookup target_name with
    | some qualified => (qualified, find_symbol_file target_name symbol_index)
    | none =>
      let same_file :=
        match symbol_index.lookup current_file with
        | some symbols => symbols.any (fun s => s.name = target_name)
        | none => false
      if same_file then (target_name, current_file)
      else
        let file := find_symbol_file target_name symbol_index
        if file ≠ "" then (target_name, file)
        else ("", "")

/-- `HashMap::entry(k).or_insert_with(v)`: insert only when the key is absent
(`graph.rs`, lines 137–141). -/
def or_insert (m : List (String × List SymbolInfo)) (k : String) (v : List SymbolInfo) :
    List (String × List SymbolInfo) :=
  match m.lookup k with
  | some _ => m
  | none => m ++ [(k, v)]

/-- The merged symbol index of `build_graph`: start from the chunks-table
index (`global`) and fold the direct tree-sitter index (`direct`) into it
with `or_insert`. -/
def merge_symbol_index (global direct : List (String × List SymbolInfo)) :
    List (String × List SymbolInfo) :=
  direct.foldl (fun m p => or_insert m p.1 p.2) global

/-- The files of the index owning a symbol named `name`, in index order. -/
def owners (name : String) (symbol_index : List (String × List SymbolInfo)) : List String :=
  (symbol_index.filter (fun p => p.2.any (fun s => s.name = name))).map (fun p => p.1)

/-! ### Incremental sync (`indexer.rs`, `sync_repository`) and the sync verb
(`ops.rs`, `op_sync`)

The Git repository and the parts of the pipeline the sync claims do not
exercise (the tree-to-tree diff walk and the full `index_repository` walk)
are abstracted into a `SyncEnv`: the claims are about the branch structure
before those calls, which is embedded faithfully.
-/

/-- `indexer.rs`, `IndexResult`. -/
structure IndexResult where
  chunk_count : Nat
  embed_pending : Bool
  head_commit : Option String
deriving DecidableEq

/-- The repository metadata fields `op_sync` touches (`state.rs`, `RepoMeta`). -/
structure RepoMeta where
  indexing : Bool
  chunk_count : Nat
  embed_pending : Bool
  last_indexed_commit : Option String
  last_indexed_at : Option Nat
  last_sync_error : Option String
deriving DecidableEq

/-- Abstraction of the repository state and of the two sub-pipelines a sync
may invoke. -/
structure SyncEnv where
  /-- `repo.head()?.peel_to_commit()?.id()` -/
  head_oid : String
  /-- the commits `repo.find_commit` can resolve -/
  odb_commits : List String
  /-- `count_rows_filtered` for this repo -/
  chunk_count : Nat
  /-- outcome of the diff-driven re-index (lines 256–345), abstracted -/
  diff_sync_result : Except String IndexResult
  /-- outcome of `index_repository`, abstracted -/
  full_index_result : Except String IndexResult

/-- `git2::Oid::from_str` succeeds exactly on 40-character hex strings. -/
def isValidOid (s : String) : Bool :=
  s.data.length == 40 && s.data.all (fun c => c.isDigit || ('a' ≤ c && c ≤ 'f') ||
    ('A' ≤ c && c ≤ 'F'))

/-- `indexer.rs`, `sync_repository`: the control flow up to the diff.  The
`?` on `repo.find_commit(old_oid)` propagates a lookup failure as an error. -/
def sync_repository (env : SyncEnv) (last_commit : String) : Except String IndexResult :=
  if env.head_oid = last_commit then
    .ok { chunk_count := env.chunk_count, embed_pending := false,
          head_commit := some env.head_oid }
  else if isValidOid last_commit then
    if env.odb_commits.contains last_commit then env.diff_sync_result
    else .error "commit not found in object database"
  else .error "Invalid last_indexed_commit"

/-- The success branch of `op_sync`'s metadata update (`ops.rs`, 334–341). -/
def applySyncSuccess (meta : RepoMeta) (r : IndexResult) (now : Nat) : RepoMeta :=
  { meta with
    indexing := false
    chunk_count := r.chunk_count
    embed_pending := r.embed_pending
    last_indexed_commit := r.head_commit
    last_indexed_at := some now
    last_sync_error := none }

/-- The failure branch of `op_sync`'s metadata update (`ops.rs`, 351–357). -/
def applySyncFailure (meta : RepoMeta) (e : String) : RepoMeta :=
  { meta with indexing := false, last_sync_error := some e }

/-- One repository's round through `op_sync` (`ops.rs`, 300–357): run
`sync_repository` when a last-indexed commit is stored, else a full re-index,
then fold the outcome into the metadata. -/
def op_sync_repo (env : SyncEnv) (meta : RepoMeta) (now : Nat) : RepoMeta :=
  let result :=
    match meta.last_indexed_commit with
    | some commit => sync_repository env commit
    | none => env.full_index_result
  match result with
  | .ok r => applySyncSuccess meta r now
  | .error e => applySyncFailure meta e

/-! ### Search filters (`ops.rs`, `op_search` 409–437 and `search.rs`,
`scan_symbols` 274–288) -/

/-- Doubling of single quotes, as `symbol.replace('\'', "''")` does in the
operations that do escape (`op_find_references`, `op_call_graph`,
`op_dependency_graph`, `op_type_hierarchy`, `delete_file_chunks`). -/
def escape_quotes_data : List Char → List Char
  | [] => []
  | c :: rest =>
    if c = '\'' then '\'' :: '\'' :: escape_quotes_data rest
    else c :: escape_quotes_data rest

/-- Rust `s.replace('\'', "''")`. -/
def escape_quotes (s : String) : String := ⟨escape_quotes_data s.data⟩

/-- The filter `op_search` builds (`ops.rs`, 409–437).  `workspace_repo_ids`
is the repo-id list of the named workspace when it exists. -/
def build_search_filter (repo_id : Option String) (workspace_repo_ids : Option (List String))
    (language symbol_type : Option String) : Option String :=
  let filter_parts : List String := []
  let filter_parts :=
    match repo_id with
    | some id => filter_parts ++ ["repo_id = '" ++ id ++ "'"]
    | none => filter_parts
  let filter_parts :=
    match workspace_repo_ids with
    | some ids =>
      if ids ≠ [] then
        filter_parts ++
          ["repo_id IN (" ++
            String.intercalate ", " (ids.map (fun id => "'" ++ id ++ "'")) ++ ")"]
      else filter_parts
    | none => filter_parts
  let filter_parts :=
    match language with
    | some lang => filter_parts ++ ["language = '" ++ lang ++ "'"]
    | none => filter_parts
  let filter_parts :=
    match symbol_type with
    | some st => filter_parts ++ ["symbol_type = '" ++ st ++ "'"]
    | none => filter_parts
  if filter_parts = [] then none
  else some (String.intercalate " AND " filter_parts)

/-- The filter `scan_symbols` builds (`search.rs`, 274–288). -/
def scan_symbols_filter (repo_id : String) (language symbol_type : Option String) : String :=
  let filter_parts : List String := ["repo_id = '" ++ repo_id ++ "'"]
  let filter_parts :=
    match language with
    | some lang => filter_parts ++ ["language = '" ++ lang ++ "'"]
    | none => filter_parts
  let filter_parts :=
    match symbol_type with
    | some st => filter_parts ++ ["symbol_type = '" ++ st ++ "'"]
    | none => filter_parts
  String.intercalate " AND " filter_parts

/-! ### Standard-webhooks verification (`webhook-receiver/src/verification.rs`
and `http_server.rs`)

HMAC-SHA256 is a parameter (`hmac key message`); base64 is implemented
concretely.  Bytes are `List Nat` (each < 256).  The body is modelled by its
UTF-8-lossy string (`String::from_utf8_lossy`), which the Rust code also
reduces it to before signing.
-/

/-- UTF-8 bytes of a string. -/
def strBytes (s : String) : List Nat := s.toUTF8.toList.map (fun b => b.toNat)

/-- The standard base64 alphabet. -/
def b64Alphabet : List Char :=
  "ABCDEFGHIJKLMNOPQRSTUVWXYZabcdefghijklmnopqrstuvwxyz0123456789+/".data

/-- Character of a 6-bit group. -/
def b64Char (n : Nat) : Char := b64Alphabet.getD n 'A'

/-- Value of a base64 character. -/
def b64Val (c : Char) : Option Nat :=
  if 'A' ≤ c ∧ c ≤ 'Z' then some (c.toNat - 65)
  else if 'a' ≤ c ∧ c ≤ 'z' then some (c.toNat - 71)
  else if '0' ≤ c ∧ c ≤ '9' then some (c.toNat + 4)
  else if c = '+' then some 62
  else if c = '/' then some 63
  else none

/-- Base64-encode a byte list (standard alphabet, padded). -/
def b64EncodeData : List Nat → List Char
  | [] => []
  | [a] => [b64Char (a / 4), b64Char (a % 4 * 16), '=', '=']
  | [a, b] => [b64Char (a / 4), b64Char (a % 4 * 16 + b / 16), b64Char (b % 16 * 4), '=']
  | a :: b :: c :: rest =>
    b64Char (a / 4) :: b64Char (a % 4 * 16 + b / 16) ::
      b64Char (b % 16 * 4 + c / 64) :: b64Char (c % 64) :: b64EncodeData rest

/-- `base64::engine::general_purpose::STANDARD.encode`. -/
def b64Encode (bytes : List Nat) : String := ⟨b64EncodeData bytes⟩

/-- Decode a base64 character list in groups of four; canonical padding only,
trailing bits must be zero (the strict behaviour of the STANDARD engine). -/
def b64DecodeData : List Char → Option (List Nat)
  | [] => some []
  | c1 :: c2 :: c3 :: c4 :: rest =>
    match b64Val c1, b64Val c2 with
    | some v1, some v2 =>
      if c3 = '=' then
        if c4 = '=' ∧ rest = [] ∧ v2 % 16 = 0 then some [v1 * 4 + v2 / 16]
        else none
      else
        match b64Val c3 with
        | some v3 =>
          if c4 = '=' then
            if rest = [] ∧ v3 % 4 = 0 then
              some [v1 * 4 + v2 / 16, v2 % 16 * 16 + v3 / 4]
            else none
          else
            match b64Val c4 with
            | some v4 =>
              match b64DecodeData rest with
              | some tail =>
                some ((v1 * 4 + v2 / 16) :: (v2 % 16 * 16 + v3 / 4) :: (v3 % 4 * 64 + v4) :: tail)
              | none => none
            | none => none
        | none => none
    | _, _ => none
  | _ => none

/-- `base64::engine::general_purpose::STANDARD.decode`. -/
def b64Decode (s : String) : Option (List Nat) := b64DecodeData s.data

/-- Rust `str::split_whitespace`: the non-empty maximal runs between
whitespace characters. -/
def splitWs (s : String) : List String :=
  (s.split (fun c => c.isWhitespace)).filter (fun piece => piece ≠ "")

/-- `verification.rs`, `verify_standard_webhooks`.  The secret is
base64-decoded when possible, else used raw; the signed payload is
`"{msg_id}.{timestamp}.{body}"`; the header is accepted when any
whitespace-separated token equals `"v1," ++ base64(mac)`.
(`Hmac::new_from_slice` accepts keys of any length, so its error branch is
unreachable and not modelled.) -/
def verify_standard_webhooks (hmac : List Nat → List Nat → List Nat)
    (secret body msg_id timestamp signature_header : String) : Bool :=
  let secret_bytes :=
    match b64Decode secret with
    | some b => b
    | none => strBytes secret
  let signed_payload := msg_id ++ "." ++ timestamp ++ "." ++ body
  let computed_b64 := b64Encode (hmac secret_bytes (strBytes signed_payload))
  let expected_sig := "v1," ++ computed_b64
  (splitWs signature_header).any (fun sig => sig == expected_sig)

/-- The `"standard-webhooks"` arm of `handle_webhook` (`http_server.rs`,
86–101): header lookups default to the empty string, the secret to `""`. -/
def handle_webhook_standard (hmac : List Nat → List Nat → List Nat)
    (verification_secret : Option String) (headers : List (String × String))
    (body : String) : Bool :=
  verify_standard_webhooks hmac (verification_secret.getD "") body
    ((headers.lookup "webhook-id").getD "")
    ((headers.lookup "webhook-timestamp").getD "")
    ((headers.lookup "webhook-signature").getD "")

/-! ### Helper lemmas -/

/-- Splitting at a separator character that occurs in neither prefix is
unambiguous. -/
theorem sep_split {c : Char} :
    ∀ {a a' b b' : List Char}, c ∉ a → c ∉ a' →
      a ++ c :: b = a' ++ c :: b' → a = a' ∧ b = b' := by
  intro a
  induction a with
  | nil =>
    intro a' b b' _ ha' h
    cases a' with
    | nil => simpa using h
    | cons x t =>
      simp only [List.nil_append, List.cons_append, List.cons.injEq] at h
      exact absurd (h.1 ▸ List.mem_cons_self x t) ha'
  | cons x t ih =>
    intro a' b b' ha ha' h
    cases a' with
    | nil =>
      simp only [List.cons_append, List.nil_append, List.cons.injEq] at h
      exact absurd (h.1.symm ▸ List.mem_cons_self x t) ha
    | cons y t' =>
      simp only [List.cons_append, List.cons.injEq] at h
      obtain ⟨hx, hrest⟩ := h
      have := ih (fun hm => ha (List.mem_cons_of_mem x hm))
        (fun hm => ha' (hx ▸ List.mem_cons_of_mem y hm)) hrest
      exact ⟨by rw [hx, this.1], this.2⟩

theorem chunk_id_data (r f s : String) (n : Nat) :
    (chunk_id r f s n).data =
      r.data ++ ':' :: (f.data ++ ':' :: (s.data ++ ':' :: natDigits n)) := by
  simp [chunk_id, String.data_append, natStr]

theorem edge_id_data (r sf : String) (n : Nat) (tn et : String) :
    (edge_id r sf n tn et).data =
      r.data ++ ':' :: (sf.data ++ ':' :: (natDigits n ++ ':' :: (tn.data ++ ':' :: et.data))) := by
  simp [edge_id, String.data_append, natStr]

/-- `List.lookup` through a single appended binding. -/
theorem lookup_append_single {β : Type} (m : List (String × β)) (k : String) (v : β)
    (f : String) :
    (m ++ [(k, v)]).lookup f =
      match m.lookup f with
      | some w => some w
      | none => if f == k then some v else none := by
  induction m with
  | nil => cases h : f == k <;> simp [List.lookup, h]
  | cons p rest ih =>
    cases h : f == p.1
    · simp only [List.cons_append, List.lookup, h]
      exact ih
    · simp only [List.cons_append, List.lookup, h]

/-- `splitNl` never returns the empty list. -/
theorem splitNl_ne_nil (l : List Char) : splitNl l ≠ [] := by
  cases l with
  | nil => simp [splitNl]
  | cons c rest =>
    simp only [splitNl]
    by_cases h : c = '\n'
    · simp [h]
    · simp only [h, if_neg, if_false]
      cases hs : splitNl rest <;> simp

/-- For a non-empty character list the split is never the single empty
piece. -/
theorem splitNl_ne_single_nil (l : List Char) (h : l ≠ []) : splitNl l ≠ [[]] := by
  cases l with
  | nil => exact absurd rfl h
  | cons c rest =>
    simp only [splitNl]
    by_cases hc : c = '\n'
    · simp only [hc, if_pos]
      intro heq
      exact splitNl_ne_nil rest (by simpa using heq)
    · simp only [hc, if_neg, if_false]
      cases hs : splitNl rest with
      | nil => simp
      | cons piece pieces => simp

/-- A non-empty source has at least one line. -/
theorem rustLines_length_pos (s : String) (h : s ≠ "") : 0 < (rustLines s).length := by
  have hdata : s.data ≠ [] := fun hd => h (String.ext (by simpa using hd))
  simp only [rustLines]
  by_cases hlast : (splitNl s.data).getLast? = some []
  · simp only [hlast, if_pos, List.length_map]
    have h1 : splitNl s.data ≠ [] := splitNl_ne_nil s.data
    have h2 : splitNl s.data ≠ [[]] := splitNl_ne_single_nil s.data hdata
    match hsp : splitNl s.data with
    | [] => exact absurd hsp h1
    | [x] =>
      rw [hsp] at hlast
      simp at hlast
      exact absurd (hsp.trans (by rw [hlast])) h2
    | x :: y :: rest => simp [List.dropLast]
  · simp only [hlast, if_neg, if_false, List.length_map]
    have h1 : splitNl s.data ≠ [] := splitNl_ne_nil s.data
    exact List.length_pos.mpr h1

theorem owners_cons (name file : String) (symbols : List SymbolInfo)
    (rest : List (String × List SymbolInfo)) :
    owners name ((file, symbols) :: rest) =
      if symbols.any (fun s => s.name = name) then file :: owners name rest
      else owners name rest := by
  by_cases h : symbols.any (fun s => s.name = name) <;> simp [owners, List.filter, h]

theorem findSymbolFileGo_no_owner (name : String) :
    ∀ (l : List (String × List SymbolInfo)) (found : String) (count : Nat),
      owners name l = [] → findSymbolFileGo name l found count = found := by
  intro l
  induction l with
  | nil => intro found count _; rfl
  | cons p rest ih =>
    intro found count h
    obtain ⟨file, symbols⟩ := p
    rw [owners_cons] at h
    by_cases hm : symbols.any (fun s => s.name = name)
    · simp [hm] at h
    · simp only [hm, if_neg, if_false] at h
      simp only [findSymbolFileGo, hm, if_neg, if_false]
      exact ih found count h

theorem findSymbolFileGo_count_one (name : String) :
    ∀ (l : List (String × List SymbolInfo)) (found : String),
      findSymbolFileGo name l found 1 =
        if owners name l = [] then found else "" := by
  intro l
  induction l with
  | nil => intro found; simp [findSymbolFileGo, owners]
  | cons p rest ih =>
    intro found
    obtain ⟨file, symbols⟩ := p
    rw [owners_cons]
    by_cases hm : symbols.any (fun s => s.name = name)
    · simp [findSymbolFileGo, hm]
    · simp only [findSymbolFileGo, hm, if_neg, if_false]
      exact ih found

/-- A uniquely owned symbol name resolves to its owning file. -/
theorem find_symbol_file_unique (name f : String) (index : List (String × List SymbolInfo))
    (h : owners name index = [f]) : find_symbol_file name index = f := by
  unfold find_symbol_file
  induction index with
  | nil => simp [owners] at h
  | cons p rest ih =>
    obtain ⟨file, symbols⟩ := p
    rw [owners_cons] at h
    by_cases hm : symbols.any (fun s => s.name = name)
    · simp only [hm, if_pos, List.cons.injEq] at h
      obtain ⟨hfile, hrest⟩ := h
      simp only [findSymbolFileGo, hm, if_pos]
      norm_num
      rw [findSymbolFileGo_count_one, if_pos hrest, hfile]
    · simp only [hm, if_neg, if_false] at h
      simp only [findSymbolFileGo, hm, if_neg, if_false]
      exact ih h

/-- A symbol name owned by two or more files resolves to the empty string. -/
theorem find_symbol_file_ambiguous (name : String) (index : List (String × List SymbolInfo))
    (h : 2 ≤ (owners name index).length) : find_symbol_file name index = "" := by
  unfold find_symbol_file
  induction index with
  | nil => simp [owners] at h
  | cons p rest ih =>
    obtain ⟨file, symbols⟩ := p
    rw [owners_cons] at h
    by_cases hm : symbols.any (fun s => s.name = name)
    · simp only [hm, if_pos, List.length_cons] at h
      have hrest : owners name rest ≠ [] := by
        intro hnil
        rw [hnil] at h
        simp at h
      simp only [findSymbolFileGo, hm, if_pos]
      norm_num
      rw [findSymbolFileGo_count_one, if_neg hrest]
    · simp only [hm, if_neg, if_false] at h
      simp only [findSymbolFileGo, hm, if_neg, if_false]
      exact ih h

/-- Lookup in the merged index: the chunks-table entry wins; the direct entry
is only consulted when the chunks table has no entry for the file. -/
theorem merge_symbol_index_lookup (global direct : List (String × List SymbolInfo))
    (f : String) :
    (merge_symbol_index global direct).lookup f =
      match global.lookup f with
      | some v => some v
      | none => direct.lookup f := by
  induction direct generalizing global with
  | nil =>
    simp only [merge_symbol_index, List.foldl_nil, List.lookup]
    cases global.lookup f <;> rfl
  | cons p d ih =>
    obtain ⟨k, v⟩ := p
    simp only [merge_symbol_index, List.foldl_cons] at *
    rw [ih (or_insert global k v)]
    unfold or_insert
    cases hg : global.lookup k with
    | some w =>
      simp only []
      cases hf : global.lookup f with
      | some u => simp [hf, List.lookup]
      | none =>
        simp only [hf, List.lookup]
        have : ¬(f == k) := by
          intro hb
          rw [eq_of_beq hb, hg] at hf
          exact Option.noConfusion hf
        simp [this]
    | none =>
      simp only []
      rw [lookup_append_single]
      cases hf : global.lookup f with
      | some u => simp [hf]
      | none =>
        simp only [hf, List.lookup]
        cases hb : f == k <;> simp

/-! ### Concrete fixtures used by counterexamples and witnesses -/

/-- A 40-character hex commit id. -/
def hexA : String := ⟨List.replicate 40 'a'⟩

/-- Another 40-character hex commit id, absent from the object database of
`envC3`. -/
def hexB : String := ⟨List.replicate 40 'b'⟩

/-- A repository whose HEAD is `hexA` and whose object database only
contains `hexA`. -/
def envC3 : SyncEnv :=
  { head_oid := hexA
    odb_commits := [hexA]
    chunk_count := 7
    diff_sync_result := .ok { chunk_count := 7, embed_pending := false, head_commit := some "x" }
    full_index_result := .ok { chunk_count := 9, embed_pending := false,
                               head_commit := some "y" } }

/-- Metadata storing the unfindable commit `hexB`. -/
def metaC3 : RepoMeta :=
  { indexing := true
    chunk_count := 7
    embed_pending := false
    last_indexed_commit := some hexB
    last_indexed_at := none
    last_sync_error := none }

/-- A repository whose HEAD equals the stored commit `hexA`. -/
def envC9 : SyncEnv :=
  { head_oid := hexA
    odb_commits := [hexA]
    chunk_count := 3
    diff_sync_result := .error "diff not taken"
    full_index_result := .error "full index not taken" }

/-- Metadata with a latched `embed_pending` flag and stored commit `hexA`. -/
def metaC9 : RepoMeta :=
  { indexing := false
    chunk_count := 3
    embed_pending := true
    last_indexed_commit := some hexA
    last_indexed_at := some 1
    last_sync_error := none }

/-! ### The claims -/

/-- C2, counterexample: the hashed preimages are colon-joined, so distinct
tuples can collide — `("r","a:b","c",1)` and `("r","a","b:c",1)` share one
chunk-id preimage, and `("r","f",1,"x:y","t")` and `("r","f",1,"x","y:t")`
share one edge-id preimage. -/
theorem C2_counterexample :
    chunk_id "r" "a:b" "c" 1 = chunk_id "r" "a" "b:c" 1 ∧
    ("r", "a:b", "c", (1 : Nat)) ≠ ("r", "a", "b:c", (1 : Nat)) ∧
    edge_id "r" "f" 1 "x:y" "t" = edge_id "r" "f" 1 "x" "y:t" ∧
    ("r", "f", (1 : Nat), "x:y", "t") ≠ ("r", "f", (1 : Nat), "x", "y:t") := by
  refine ⟨by decide, by decide, by decide, by decide⟩

/-- C2 (amended): chunk identifiers (resp. edge identifiers) collide iff the
tuples `(repo_id, file_path, symbol_name, start_line)` (resp.
`(repo_id, source_file, source_line, target_name, edge_type)`) are equal,
provided the string components contain no `':'` — the separator the hashed
preimage uses; SHA-256 is treated as collision-free, i.e. identifiers are
compared as preimage strings. -/
theorem C2_ids_collide_iff :
    (∀ (r f s : String) (n : Nat) (r' f' s' : String) (n' : Nat),
      ':' ∉ r.data → ':' ∉ f.data → ':' ∉ s.data →
      ':' ∉ r'.data → ':' ∉ f'.data → ':' ∉ s'.data →
      (chunk_id r f s n = chunk_id r' f' s' n' ↔
        (r = r' ∧ f = f' ∧ s = s' ∧ n = n'))) ∧
    (∀ (r sf : String) (n : Nat) (tn et : String)
        (r' sf' : String) (n' : Nat) (tn' et' : String),
      ':' ∉ r.data → ':' ∉ sf.data → ':' ∉ tn.data → ':' ∉ et.data →
      ':' ∉ r'.data → ':' ∉ sf'.data → ':' ∉ tn'.data → ':' ∉ et'.data →
      (edge_id r sf n tn et = edge_id r' sf' n' tn' et' ↔
        (r = r' ∧ sf = sf' ∧ n = n' ∧ tn = tn' ∧ et = et'))) := by
  constructor
  · intro r f s n r' f' s' n' hr hf hs hr' hf' hs'
    constructor
    · intro h
      have hd := congrArg String.data h
      rw [chunk_id_data, chunk_id_data] at hd
      obtain ⟨h1, hd⟩ := sep_split hr hr' hd
      obtain ⟨h2, hd⟩ := sep_split hf hf' hd
      obtain ⟨h3, hd⟩ := sep_split hs hs' hd
      exact ⟨String.ext h1, String.ext h2, String.ext h3, natDigits_injective hd⟩
    · rintro ⟨rfl, rfl, rfl, rfl⟩
      rfl
  · intro r sf n tn et r' sf' n' tn' et' hr hsf htn het hr' hsf' htn' het'
    constructor
    · intro h
      have hd := congrArg String.data h
      rw [edge_id_data, edge_id_data] at hd
      obtain ⟨h1, hd⟩ := sep_split hr hr' hd
      obtain ⟨h2, hd⟩ := sep_split hsf hsf' hd
      obtain ⟨h3, hd⟩ :=
        sep_split (colon_not_mem_natDigits n) (colon_not_mem_natDigits n') hd
      obtain ⟨h4, hd⟩ := sep_split htn htn' hd
      exact ⟨String.ext h1, String.ext h2, natDigits_injective h3, String.ext h4,
        String.ext hd⟩
    · rintro ⟨rfl, rfl, rfl, rfl, rfl⟩
      rfl

/-- C2, witness: the amended equivalence evaluated at colon-free inputs that
differ only in `start_line` (chunk) resp. `edge_type` (edge). -/
theorem C2_witness :
    (chunk_id "repo" "src/a.rs" "foo" 3 = chunk_id "repo" "src/a.rs" "foo" 7 ↔
      ("repo" = "repo" ∧ "src/a.rs" = "src/a.rs" ∧ "foo" = "foo" ∧ (3 : Nat) = 7)) ∧
    (edge_id "repo" "src/a.rs" 3 "foo" "calls" = edge_id "repo" "src/a.rs" 3 "foo" "imports" ↔
      ("repo" = "repo" ∧ "src/a.rs" = "src/a.rs" ∧ (3 : Nat) = 3 ∧ "foo" = "foo" ∧
        "calls" = "imports")) :=
  ⟨C2_ids_collide_iff.1 "repo" "src/a.rs" "foo" 3 "repo" "src/a.rs" "foo" 7
      (by decide) (by decide) (by decide) (by decide) (by decide) (by decide),
    C2_ids_collide_iff.2 "repo" "src/a.rs" 3 "foo" "calls" "repo" "src/a.rs" 3 "foo" "imports"
      (by decide) (by decide) (by decide) (by decide) (by decide) (by decide) (by decide)
      (by decide)⟩

/-- C3, counterexample: with the stored commit `hexB` absent from the object
database, `sync_repository` propagates the `find_commit` failure as an error
and `op_sync` records it in `last_sync_error` — no full re-index happens. -/
theorem C3_counterexample :
    sync_repository envC3 hexB = .error "commit not found in object database" ∧
    op_sync_repo envC3 metaC3 5 =
      applySyncFailure metaC3 "commit not found in object database" ∧
    (op_sync_repo envC3 metaC3 5).last_sync_error =
      some "commit not found in object database" := by
  refine ⟨by rfl, by rfl, by rfl⟩

/-- C3 (amended): when the stored last-indexed commit is a well-formed oid
that cannot be found in the object database, the sync fails with an error and
the dispatcher records it in `last_sync_error`; a full re-index is performed
only when no last-indexed commit is stored at all. -/
theorem C3_missing_commit_errors (env : SyncEnv) (last : String)
    (hne : env.head_oid ≠ last) (hvalid : isValidOid last = true)
    (hmissing : last ∉ env.odb_commits) :
    sync_repository env last = .error "commit not found in object database" ∧
    (∀ meta now, meta.last_indexed_commit = some last →
      op_sync_repo env meta now =
        applySyncFailure meta "commit not found in object database") ∧
    (∀ meta now, meta.last_indexed_commit = none →
      op_sync_repo env meta now =
        match env.full_index_result with
        | .ok r => applySyncSuccess meta r now
        | .error e => applySyncFailure meta e) := by
  have herr : sync_repository env last = .error "commit not found in object database" := by
    simp [sync_repository, hne, hvalid, hmissing]
  refine ⟨herr, ?_, ?_⟩
  · intro meta now hm
    simp [op_sync_repo, hm, herr]
  · intro meta now hm
    simp only [op_sync_repo, hm]

/-- C3, witness: the amended behaviour evaluated on `envC3`/`metaC3`. -/
theorem C3_witness :
    sync_repository envC3 hexB = .error "commit not found in object database" ∧
    op_sync_repo envC3 metaC3 11 =
      applySyncFailure metaC3 "commit not found in object database" :=
  ⟨(C3_missing_commit_errors envC3 hexB (by decide) (by decide) (by decide)).1,
    (C3_missing_commit_errors envC3 hexB (by decide) (by decide) (by decide)).2.1
      metaC3 11 (by decide)⟩

/-- C4, counterexample: for a file present in both indexes the merged index
keeps the chunks-table rows, not the directly extracted ones —
`or_insert_with` never overwrites. -/
theorem C4_counterexample :
    (merge_symbol_index [("a.rs", [⟨"foo", "function", 1, 2⟩])]
      [("a.rs", [⟨"foo", "function", 1, 3⟩])]).lookup "a.rs" =
        some [⟨"foo", "function", 1, 2⟩] ∧
    ([("a.rs", [(⟨"foo", "function", 1, 3⟩ : SymbolInfo)])]).lookup "a.rs" =
        some [⟨"foo", "function", 1, 3⟩] ∧
    (merge_symbol_index [("a.rs", [⟨"foo", "function", 1, 2⟩])]
      [("a.rs", [⟨"foo", "function", 1, 3⟩])]).lookup "a.rs" ≠
      ([("a.rs", [(⟨"foo", "function", 1, 3⟩ : SymbolInfo)])]).lookup "a.rs" := by
  refine ⟨by decide, by decide, by decide⟩

/-- C4 (amended): in the merged symbol index the chunks-table entry takes
precedence for every file; the directly extracted symbols are consulted only
for files the chunks-table index does not contain. -/
theorem C4_merged_index_chunks_precedence
    (global direct : List (String × List SymbolInfo)) (f : String) :
    (merge_symbol_index global direct).lookup f =
      match global.lookup f with
      | some v => some v
      | none => direct.lookup f :=
  merge_symbol_index_lookup global direct f

/-- C5: the import map keys `"./utils"` by the whole string `"./utils"`, not
by `"utils"` — `rsplit("::").next()` always returns `Some`, so the
`'/'`-splitting and quote-stripping branch is dead code, contradicting the
code's own comment (`graph.rs`, lines 311–314). -/
theorem C5_import_map_key_not_shortened :
    extract_import_map [⟨"./utils", "imports", 1⟩] = [("./utils", "./utils")] ∧
    extract_import_map [⟨"std::collections::HashMap", "imports", 1⟩] =
      [("HashMap", "std::collections::HashMap")] ∧
    (∀ sep s : String, rsplitNext sep s ≠ none) := by
  refine ⟨by decide, by decide, ?_⟩
  intro sep s
  simp [rsplitNext]

/-- C8: `op_search` and `scan_symbols` interpolate caller-supplied literals
into filters without doubling single quotes, unlike `escape_quotes` (the
`replace('\'', "''")` used by the edge-query operations). -/
theorem C8_search_filter_not_escaped :
    build_search_filter (some "r") none (some "a'b") (some "c'd") =
      some "repo_id = 'r' AND language = 'a'b' AND symbol_type = 'c'd'" ∧
    scan_symbols_filter "r" (some "a'b") none = "repo_id = 'r' AND language = 'a'b'" ∧
    escape_quotes "a'b" = "a''b" ∧
    "language = '" ++ escape_quotes "a'b" ++ "'" ≠ "language = '" ++ "a'b" ++ "'" := by
  refine ⟨by decide, by decide, by decide, by decide⟩

/-- C9: a no-op sync (HEAD equals the stored commit) returns
`embed_pending = false` unconditionally, and `op_sync` persists that value,
clearing a previously latched flag. -/
theorem C9_noop_sync_clears_embed_pending (env : SyncEnv) (meta : RepoMeta) (now : Nat)
    (last : String) (hmeta : meta.last_indexed_commit = some last)
    (hhead : env.head_oid = last) :
    sync_repository env last =
      .ok { chunk_count := env.chunk_count, embed_pending := false,
            head_commit := some env.head_oid } ∧
    op_sync_repo env meta now =
      applySyncSuccess meta
        { chunk_count := env.chunk_count, embed_pending := false,
          head_commit := some env.head_oid } now ∧
    (op_sync_repo env meta now).embed_pending = false := by
  have h1 : sync_repository env last =
      .ok { chunk_count := env.chunk_count, embed_pending := false,
            head_commit := some env.head_oid } := by
    simp [sync_repository, hhead]
  have h2 : op_sync_repo env meta now =
      applySyncSuccess meta
        { chunk_count := env.chunk_count, embed_pending := false,
          head_commit := some env.head_oid } now := by
    simp [op_sync_repo, hmeta, h1]
  exact ⟨h1, h2, by simp [h2, applySyncSuccess]⟩

/-- C9, witness: `metaC9` has the flag latched; the no-op sync through
`op_sync` clears it. -/
theorem C9_witness :
    metaC9.embed_pending = true ∧
    (op_sync_repo envC9 metaC9 2).embed_pending = false :=
  ⟨by decide,
    (C9_noop_sync_clears_embed_pending envC9 metaC9 2 hexA (by decide) (by decide)).2.2⟩

/-- C6: for an unqualified reference name that is not import-mapped and not
defined in the current file, a unique owner in the merged index becomes
`target_file` with `target_qualified` the raw name, while two or more owning
files yield an empty `target_file`.  (`f ≠ ""` because index keys are file
paths; an empty owner name would be indistinguishable from "unresolved".) -/
theorem C6_global_resolution (target edge_type current_file : String)
    (import_map : List (String × String)) (index : List (String × List SymbolInfo))
    (h1 : containsSeq "::" target = false)
    (h2 : (edge_type == "imports" && containsSeq "/" target) = false)
    (h3 : import_map.lookup target = none)
    (h4 : (match index.lookup current_file with
           | some symbols => symbols.any (fun s => s.name = target)
           | none => false) = false) :
    (∀ f : String, f ≠ "" → owners target index = [f] →
      resolve_reference target edge_type current_file import_map index = (target, f)) ∧
    (2 ≤ (owners target index).length →
      (resolve_reference target edge_type current_file import_map index).2 = "") := by
  have hcond : (containsSeq "::" target
      || (edge_type == "imports" && containsSeq "/" target)) = false := by
    rw [h1, h2]; rfl
  constructor
  · intro f hf hown
    have hfind := find_symbol_file_unique target f index hown
    simp only [resolve_reference, hcond, Bool.false_eq_true, if_false, h3, h4, hfind]
    simp [hf]
  · intro hown
    have hfind := find_symbol_file_ambiguous target index hown
    simp [resolve_reference, hcond, h3, h4, hfind]

/-- C6, witness: a uniquely owned name resolves to its file; a doubly owned
name resolves to the empty file. -/
theorem C6_witness :
    resolve_reference "foo" "calls" "cur.rs" []
        [("a.rs", [⟨"foo", "function", 1, 2⟩])] = ("foo", "a.rs") ∧
    (resolve_reference "foo" "calls" "cur.rs" []
        [("a.rs", [⟨"foo", "function", 1, 2⟩]),
         ("b.rs", [⟨"foo", "function", 4, 9⟩])]).2 = "" :=
  ⟨(C6_global_resolution "foo" "calls" "cur.rs" []
      [("a.rs", [⟨"foo", "function", 1, 2⟩])]
      (by decide) (by decide) (by decide) (by decide)).1 "a.rs" (by decide) (by decide),
    (C6_global_resolution "foo" "calls" "cur.rs" []
      [("a.rs", [⟨"foo", "function", 1, 2⟩]), ("b.rs", [⟨"foo", "function", 4, 9⟩])]
      (by decide) (by decide) (by decide) (by decide)).2 (by decide)⟩

/-- C7: the standard-webhooks arm of `handle_webhook` accepts exactly when
some whitespace-separated token of the `webhook-signature` header equals
`"v1," ++ base64(HMAC-SHA256(key, "{webhook-id}.{webhook-timestamp}.{body}"))`
with the key the base64-decoding of the stored secret when it decodes, else
the raw secret bytes. -/
theorem C7_standard_webhooks_accept_iff (hmac : List Nat → List Nat → List Nat)
    (verification_secret : Option String) (headers : List (String × String))
    (body : String) :
    handle_webhook_standard hmac verification_secret headers body = true ↔
      ∃ tok ∈ splitWs ((headers.lookup "webhook-signature").getD ""),
        tok = "v1," ++ b64Encode (hmac
          (match b64Decode (verification_secret.getD "") with
           | some k => k
           | none => strBytes (verification_secret.getD ""))
          (strBytes ((headers.lookup "webhook-id").getD "" ++ "." ++
            (headers.lookup "webhook-timestamp").getD "" ++ "." ++ body))) := by
  simp only [handle_webhook_standard, verify_standard_webhooks, List.any_eq_true,
    beq_iff_eq]

/-- C10: a zero-line (empty) source yields exactly one `file_chunk` spanning
`[1, 0]` — `end_line < start_line` — whereas every chunk of a non-empty short
file satisfies `start_line ≤ end_line`. -/
theorem C10_empty_source_degenerate_chunk :
    (∀ (extract : String → String → Except String (List ExtractedSymbol))
        (file_path lang repo_id : String),
      chunk_file extract "" file_path lang repo_id =
        [{ id := chunk_id repo_id file_path "" 1
           repo_id := repo_id
           file_path := file_path
           language := lang
           symbol_name := ""
           symbol_type := "file_chunk"
           start_line := 1
           end_line := 0
           content := ""
           vector := none }]) ∧
    (∀ (extract : String → String → Except String (List ExtractedSymbol))
        (source file_path lang repo_id : String), source ≠ "" →
      (rustLines source).length < 100 →
      ((chunk_file extract source file_path lang repo_id).all
        (fun c => c.start_line ≤ c.end_line)) = true) := by
  constructor
  · intro extract file_path lang repo_id
    have h0 : rustLines "" = [] := by rfl
    simp [chunk_file, h0]
  · intro extract source file_path lang repo_id hne hlt
    have hp := rustLines_length_pos source hne
    simp only [chunk_file, hlt, if_pos, List.all_cons, List.all_nil, Bool.and_true,
      decide_eq_true_eq]
    exact hp

/-- C10, witness: the short-file branch on the two-line file `"a\nb"` only
emits well-ordered ranges. -/
theorem C10_witness :
    ("a\nb" : String) ≠ "" ∧ (rustLines "a\nb").length < 100 ∧
    ((chunk_file (fun _ _ => .error "e") "a\nb" "m.rs" "rust" "repo").all
      (fun c => c.start_line ≤ c.end_line)) = true :=
  ⟨by decide, by decide,
    C10_empty_source_degenerate_chunk.2 (fun _ _ => .error "e") "a\nb" "m.rs" "rust" "repo"
      (by decide) (by decide)⟩

theorem windowRanges_450 : windowRanges 450 0 = [(1, 200), (151, 350), (301, 450)] := by
  rw [windowRanges]
  norm_num
  rw [windowRanges]
  norm_num
  rw [windowRanges]
  norm_num

/-- An extractor that parses every supported language but finds no symbols;
on `"unknown"` it fails like `extract_symbols` does. -/
def extractNone : String → String → Except String (List ExtractedSymbol) :=
  fun _ lang =>
    if lang = "unknown" then .error "Unsupported language: unknown" else .ok []

/-- A symbol fixture. -/
def symF : ExtractedSymbol :=
  { name := "frob", symbol_type := "function", start_line := 12, end_line := 40,
    content := "fn frob() {}" }

/-- An extractor that finds exactly the symbol `symF`. -/
def extractOne : String → String → Except String (List ExtractedSymbol) :=
  fun _ lang =>
    if lang = "unknown" then .error "Unsupported language: unknown" else .ok [symF]

theorem extractNone_unknown :
    ∀ s, extractNone s "unknown" = .error "Unsupported language: unknown" :=
  fun _ => by simp [extractNone]

theorem extractOne_unknown :
    ∀ s, extractOne s "unknown" = .error "Unsupported language: unknown" :=
  fun _ => by simp [extractOne]

/-- A 450-line source with one `'a'` per line. -/
def src450 : String := String.intercalate "\n" (List.replicate 450 "a")

/-- C1: the three-tier chunking policy of `chunk_file`.  Under the hypothesis
that extraction fails on the `"unknown"` language (as `extract_symbols`
does): a file of fewer than 100 lines yields one `file_chunk` spanning
`[1, line_count]`; a file of at least 100 lines whose extraction yields at
least one symbol produces exactly one chunk per symbol with that symbol's
range and text; otherwise the 200/50 sliding window is used, and a 450-line
file emits exactly the windows `[1,200]`, `[151,350]`, `[301,450]`. -/
theorem C1_chunking_policy (extract : String → String → Except String (List ExtractedSymbol))
    (source file_path lang repo_id : String)
    (hE : ∀ s, extract s "unknown" = .error "Unsupported language: unknown") :
    ((rustLines source).length < 100 →
      chunk_file extract source file_path lang repo_id =
        [{ id := chunk_id repo_id file_path "" 1
           repo_id := repo_id
           file_path := file_path
           language := lang
           symbol_name := ""
           symbol_type := "file_chunk"
           start_line := 1
           end_line := (rustLines source).length
           content := source
           vector := none }]) ∧
    (∀ symbols, 100 ≤ (rustLines source).length →
      extract source lang = .ok symbols → symbols ≠ [] →
      chunk_file extract source file_path lang repo_id =
        symbols.map (fun sym =>
          { id := chunk_id repo_id file_path sym.name sym.start_line
            repo_id := repo_id
            file_path := file_path
            language := lang
            symbol_name := sym.name
            symbol_type := sym.symbol_type
            start_line := sym.start_line
            end_line := sym.end_line
            content := sym.content
            vector := none })) ∧
    (100 ≤ (rustLines source).length →
      (lang = "unknown" ∨ (∃ e, extract source lang = .error e) ∨
        extract source lang = .ok []) →
      (chunk_file extract source file_path lang repo_id).map
          (fun c => (c.start_line, c.end_line)) =
        windowRanges (rustLines source).length 0) ∧
    ((rustLines source).length = 450 →
      (lang = "unknown" ∨ (∃ e, extract source lang = .error e) ∨
        extract source lang = .ok []) →
      (chunk_file extract source file_path lang repo_id).map
          (fun c => (c.start_line, c.end_line)) =
        [(1, 200), (151, 350), (301, 450)]) := by
  have main3 : 100 ≤ (rustLines source).length →
      (lang = "unknown" ∨ (∃ e, extract source lang = .error e) ∨
        extract source lang = .ok []) →
      (chunk_file extract source file_path lang repo_id).map
          (fun c => (c.start_line, c.end_line)) =
        windowRanges (rustLines source).length 0 := by
    intro hge hcase
    have hfall : chunk_file extract source file_path lang repo_id =
        slidingChunks (rustLines source) file_path lang repo_id 0 := by
      rcases hcase with hlang | ⟨e, herr⟩ | hok0
      · subst hlang
        simp [chunk_file, Nat.not_lt.mpr hge]
      · by_cases hl : lang = "unknown"
        · subst hl
          simp [chunk_file, Nat.not_lt.mpr hge]
        · simp [chunk_file, Nat.not_lt.mpr hge, hl, herr]
      · by_cases hl : lang = "unknown"
        · subst hl
          simp [chunk_file, Nat.not_lt.mpr hge]
        · simp [chunk_file, Nat.not_lt.mpr hge, hl, hok0]
    rw [hfall, slidingChunks_ranges]
  refine ⟨?_, ?_, main3, ?_⟩
  · intro hlt
    simp [chunk_file, hlt]
  · intro symbols hge hok hne
    have hlang : lang ≠ "unknown" := by
      intro hl
      rw [hl, hE source] at hok
      exact Except.noConfusion hok
    simp [chunk_file, Nat.not_lt.mpr hge, hlang, hok, hne]
  · intro h450 hcase
    rw [main3 (by omega) hcase, h450, windowRanges_450]

/-- C1, witness: the three tiers on concrete inputs — a 2-line file, a
450-line file with one extracted symbol, and a 450-line unknown-language
file. -/
theorem C1_witness :
    chunk_file extractNone "a\nb" "f.rs" "rust" "r" =
      [{ id := chunk_id "r" "f.rs" "" 1
         repo_id := "r"
         file_path := "f.rs"
         language := "rust"
         symbol_name := ""
         symbol_type := "file_chunk"
         start_line := 1
         end_line := 2
         content := "a\nb"
         vector := none }] ∧
    chunk_file extractOne src450 "f.rs" "rust" "r" =
      [{ id := chunk_id "r" "f.rs" "frob" 12
         repo_id := "r"
         file_path := "f.rs"
         language := "rust"
         symbol_name := "frob"
         symbol_type := "function"
         start_line := 12
         end_line := 40
         content := "fn frob() {}"
         vector := none }] ∧
    (chunk_file extractNone src450 "f.rs" "unknown" "r").map
        (fun c => (c.start_line, c.end_line)) = [(1, 200), (151, 350), (301, 450)] := by
  refine ⟨?_, ?_, ?_⟩
  · have h := (C1_chunking_policy extractNone "a\nb" "f.rs" "rust" "r"
      extractNone_unknown).1 (by decide)
    have hl : (rustLines "a\nb").length = 2 := by decide
    rw [hl] at h
    exact h
  · have h := (C1_chunking_policy extractOne src450 "f.rs" "rust" "r"
      extractOne_unknown).2.1 [symF] (by decide) (by simp [extractOne]) (by decide)
    simpa [symF] using h
  · exact (C1_chunking_policy extractNone src450 "f.rs" "unknown" "r"
      extractNone_unknown).2.2.2 (by decide) (Or.inl rfl)

end Nexus
